import Mathlib

/-!
Verification model of the r2ready requirement-coverage engine.

The repository contains two aggregator entry points:
* `phase0_generate_reports.py` (functions `ensure`, `tokens_from`, `norm_cr`,
  `coverage_from_rows`, `write_coverage`, regex `CR_RX`), and
* `Fixes/engine/engine_cli.py` (functions `norm_tags` and `main`).

Each Python function is embedded below as an executable Lean definition with the
same name (modulo Lean identifier spelling).  Strings are modelled by `String`
(lists of characters), CSV rows by association lists from column name to cell
value, and Python sets by duplicate-free lists whose downstream uses are
membership tests or explicit sorts, exactly as in the source.
-/

/-! ## Basic character and string helpers -/

/-- Python whitespace class (`\s` over ASCII): space, tab, newline,
carriage return, vertical tab, form feed. -/
def isPyWs (c : Char) : Bool :=
  c == ' ' || c == '\t' || c == '\n' || c == '\r' || c == '\x0b' || c == '\x0c'

/-- Python `str.strip()`: drop leading and trailing whitespace characters. -/
def trimChars (l : List Char) : List Char :=
  ((l.dropWhile isPyWs).reverse.dropWhile isPyWs).reverse

/-- Python `str.strip()` on strings. -/
def pyStrip (s : String) : String := String.mk (trimChars s.data)

/-- Python `str.upper()` (ASCII fragment). -/
def pyUpper (s : String) : String := String.mk (s.data.map Char.toUpper)

/-- Python `str.lower()` (ASCII fragment). -/
def pyLower (s : String) : String := String.mk (s.data.map Char.toLower)

/-! ## Generic delimiter splitting

Both normalizers split a raw string at delimiter characters; empty segments are
dropped (the Python code filters them out after stripping). -/

def splitOn (p : Char → Bool) : List Char → List Char → List (List Char)
  | [], acc => if acc = [] then [] else [acc.reverse]
  | c :: cs, acc =>
    if p c then
      (if acc = [] then splitOn p cs [] else acc.reverse :: splitOn p cs [])
    else
      splitOn p cs (c :: acc)

/-- Append each element not already present, keeping first-seen order. -/
def addNew (acc : List String) (l : List String) : List String :=
  l.foldl (fun a x => if x ∈ a then a else a ++ [x]) acc

/-- Keep the first occurrence of every element, dropping later duplicates
(the observable content of building a Python `set` whose uses are
membership tests and sorted traversals). -/
def dedupKeepFirst (l : List String) : List String := addNew [] l

/-! ## phase0 `tokens_from`

`re.split(r"[,\|;/\s]+", str(val))` followed by
`{t.strip().upper() for t in toks if t.strip()}`. -/

def isP0Delim (c : Char) : Bool :=
  c == ',' || c == '|' || c == ';' || c == '/' || isPyWs c

def tokens_from (val : String) : List String :=
  if val = "" then []
  else
    dedupKeepFirst
      ((splitOn isP0Delim val.data []).map (fun t => pyUpper (String.mk (trimChars t))))

/-! ## engine `norm_tags`

`val.replace(";",",").split(",")`, then per token
`t.strip().upper().replace(" ", "")`, then `set(filter(None, raw))`. -/

def isEngDelim (c : Char) : Bool := c == ',' || c == ';'

def norm_tags (val : String) : List String :=
  if val = "" then []
  else
    dedupKeepFirst
      (((splitOn isEngDelim val.data []).map
          (fun t => String.mk (((trimChars t).map Char.toUpper).filter (fun c => c ≠ ' ')))).filter
        (fun t => t ≠ ""))

/-! ## phase0 `norm_cr`

`t = re.sub(r"[\s_-]+", "", tok or "").upper()`; if `t` starts with `CR` and the
rest is a digit string whose value lies in 1..10, return `f"CR{int(n)}"`. -/

/-- Characters removed by `re.sub(r"[\s_-]+", "", ·)`. -/
def isSepChar (c : Char) : Bool := isPyWs c || c == '_' || c == '-'

def stripSep (l : List Char) : List Char := l.filter (fun c => !isSepChar c)

/-- The normalized token `re.sub(r"[\s_-]+","",tok).upper()` as a char list. -/
def normTok (tok : String) : List Char := (stripSep tok.data).map Char.toUpper

def isDigitChar (c : Char) : Bool := '0' ≤ c && c ≤ '9'

def allDigits (l : List Char) : Bool := l.all isDigitChar

def natOfDigits (l : List Char) : Nat := l.foldl (fun n c => 10 * n + (c.toNat - 48)) 0

def norm_cr (tok : String) : Option String :=
  match normTok tok with
  | c1 :: c2 :: n =>
    if c1 = 'C' ∧ c2 = 'R' ∧ n ≠ [] ∧ allDigits n = true ∧
        1 ≤ natOfDigits n ∧ natOfDigits n ≤ 10 then
      some ("CR" ++ toString (natOfDigits n))
    else none
  | _ => none

/-! ## phase0 `CR_RX` text scanner

`re.compile(r"\bCR[-_ ]?0?([1-9]|10)\b", re.I)` with `finditer`.  The pattern is
compiled by hand: a word boundary, `CR` case-insensitively, at most one of
`-`/`_`/space, at most one `0`, then either a single digit 1..9 or `10`, then a
word boundary.  The regex engine prefers the single-digit alternative and only
then `10`; the optional pieces never need to backtrack because a separator or a
zero can never begin the digit group.  Matches cannot overlap (no `C` can occur
inside a match span), so a left-to-right scan reproduces `finditer`. -/

def isWordChar (c : Char) : Bool := c.isAlphanum || c == '_'

/-- Word boundary immediately after the match: end of input or a
non-word character. -/
def boundaryAfter : List Char → Bool
  | [] => true
  | c :: _ => !isWordChar c

/-- The optional `[-_ ]?`. -/
def skipSep : List Char → List Char
  | c :: t => if c = '-' ∨ c = '_' ∨ c = ' ' then t else c :: t
  | [] => []

/-- The optional `0?`. -/
def skipZero : List Char → List Char
  | '0' :: t => t
  | l => l

/-- The capture group `([1-9]|10)` followed by `\b`: the single-digit
alternative is preferred, `10` tried second. -/
def digitTail : List Char → Option Nat
  | d :: t =>
    if 49 ≤ d.toNat ∧ d.toNat ≤ 57 then
      if boundaryAfter t then some (d.toNat - 48)
      else if d = '1' then
        match t with
        | '0' :: t2 => if boundaryAfter t2 then some 10 else none
        | _ => none
      else none
    else none
  | [] => none

def matchCRAt : List Char → Option Nat
  | c1 :: c2 :: rest =>
    if (c1 = 'C' ∨ c1 = 'c') ∧ (c2 = 'R' ∨ c2 = 'r') then
      digitTail (skipZero (skipSep rest))
    else none
  | _ => none

/-- Scan for all matches left to right.  `prevW` records whether the previous
character is a word character (false at the start of the string), which
implements the leading `\b`. -/
def crScan : List Char → Bool → List Nat
  | [], _ => []
  | c :: cs, prevW =>
    if prevW then crScan cs (isWordChar c)
    else
      match matchCRAt (c :: cs) with
      | some k => k :: crScan cs (isWordChar c)
      | none => crScan cs (isWordChar c)

/-- Models `[int(m.group(1)) for m in CR_RX.finditer(txt)]`. -/
def crMatches (s : String) : List Nat := crScan s.data false

/-! ## Tabular input

A table is a header (ordered column names) plus rows, each row an association
list from column name to cell value — the shape `csv.DictReader` yields, where
every row shares the header keys. -/

structure Table where
  cols : List String
  rows : List (List (String × String))

/-- Models `row[c]` when the key is present (`row.get(c)` otherwise `None`). -/
def getCell (row : List (String × String)) (c : String) : Option String :=
  (row.find? (fun p => p.1 == c)).map (fun p => p.2)

/-- Models `row.get(c, d)`. -/
def getCellD (row : List (String × String)) (c : String) (d : String) : String :=
  (getCell row c).getD d

/-! ## phase0 field discovery and requirement enumeration -/

def REQS : List String :=
  (List.range 10).map (fun i => "CR" ++ toString (i + 1)) ++
    ["A", "B", "C", "D", "E", "F", "G"]

def LETTERS : List String := ["A", "B", "C", "D", "E", "F", "G"]

def ID_CANDS : List String := ["id", "question_id", "qid", "key", "ref"]
def TXT_CANDS : List String := ["text", "question", "prompt", "body", "label"]
def TAG_CANDS : List String :=
  ["tags", "tag", "controls", "control", "categories", "category", "cr", "mapping"]

/-- Models `next((c for c in cols if c.lower() in CANDS), None)`. -/
def pickFirst (cols : List String) (cands : List String) : Option String :=
  cols.find? (fun c => cands.contains (pyLower c))

/-- Models `[c for c in cols if c.lower() in TAG_CANDS]`. -/
def pickTagCols (cols : List String) : List String :=
  cols.filter (fun c => TAG_CANDS.contains (pyLower c))

/-! ## phase0 per-row record extraction -/

/-- The derived view of one row: its effective id, the union of its tag tokens,
and its free text when a text column was discovered. -/
structure Rec where
  qid : String
  tags : List String
  txt : Option String
  deriving DecidableEq

/-- Models `row.get(id_field) or f"row{idx}"`: the cell when present and non-empty
(Python truthiness), else the synthesized positional id. -/
def mkQid (idf : Option String) (row : List (String × String)) (idx : Nat) : String :=
  match idf with
  | none => "row" ++ toString idx
  | some f =>
    match getCell row f with
    | some s => if s = "" then "row" ++ toString idx else s
    | none => "row" ++ toString idx

/-- Models `tags |= tokens_from(row.get(tf, ""))` over every discovered tag column. -/
def rowTags (tagfs : List String) (row : List (String × String)) : List String :=
  dedupKeepFirst (tagfs.foldl (fun acc tf => acc ++ tokens_from (getCellD row tf "")) [])

def mkRec (idf txtf : Option String) (tagfs : List String)
    (idx : Nat) (row : List (String × String)) : Rec :=
  { qid := mkQid idf row idx
    tags := rowTags tagfs row
    txt := txtf.map (fun tf => getCellD row tf "") }

/-- Models `enumerate(rows, start=1)` feeding `mkRec`. -/
def mkRecs (idf txtf : Option String) (tagfs : List String) :
    Nat → List (List (String × String)) → List Rec
  | _, [] => []
  | i, r :: rs => mkRec idf txtf tagfs i r :: mkRecs idf txtf tagfs (i + 1) rs

/-- The record view of a whole table, columns discovered from the header. -/
def tableRecs (tbl : Table) : List Rec :=
  mkRecs (pickFirst tbl.cols ID_CANDS) (pickFirst tbl.cols TXT_CANDS)
    (pickTagCols tbl.cols) 1 tbl.rows

/-! ## phase0 coverage aggregation (`coverage_from_rows`) -/

/-- The coverage ledger `cov`, defaulting to the empty id list per code. -/
def Cov : Type := String → List String

def covInit : Cov := fun _ => []

def covSet (cov : Cov) (c : String) (v : List String) : Cov :=
  fun c2 => if c2 = c then v else cov c2

/-- Models `if qid not in cov[c]: cov[c].append(qid)`. -/
def addIf (cov : Cov) (c : String) (qid : String) : Cov :=
  if qid ∈ cov c then cov else covSet cov c (cov c ++ [qid])

/-- One row of `coverage_from_rows`: tag-driven CRs, then tag-driven letters,
then the text-driven CR fallback. -/
def processRec (cov : Cov) (r : Rec) : Cov :=
  let cov1 := r.tags.foldl
    (fun cv t =>
      match norm_cr t with
      | some cr => addIf cv cr r.qid
      | none => cv) cov
  let cov2 := LETTERS.foldl
    (fun cv letter => if letter ∈ r.tags then addIf cv letter r.qid else cv) cov1
  match r.txt with
  | some s => (crMatches s).foldl (fun cv k => addIf cv ("CR" ++ toString k) r.qid) cov2
  | none => cov2

def coverFrom (cov : Cov) (recs : List Rec) : Cov := recs.foldl processRec cov

/-- Function `coverage_from_rows`: early return on an empty row list, otherwise fold the
records over the empty ledger. -/
def coverage_from_rows (tbl : Table) : Cov :=
  if tbl.rows = [] then covInit else coverFrom covInit (tableRecs tbl)

/-! ## phase0 report emission (`write_coverage`) and `main` -/

structure CovRow where
  Requirement : String
  Covered : String
  Count : Nat
  QuestionIDs : String
  ProposedAddIfGap : String
  deriving DecidableEq

def write_coverage (cov : Cov) : List CovRow :=
  REQS.map (fun req =>
    { Requirement := req
      Covered := if cov req = [] then "N" else "Y"
      Count := (cov req).length
      QuestionIDs := String.intercalate ";" (cov req)
      ProposedAddIfGap := if cov req = [] then "ADD_" ++ req ++ "_QUESTION" else "" })

/-- Models `ensure()` then the coverage pipeline of `main()`.  `sys.exit(message)`
terminates with a non-zero status carrying the message; a present questions
file is the parsed table, an absent one is `none`. -/
def phase0Run (questions : Option Table) (pdfPresent : Bool) :
    Except String (List CovRow) :=
  match questions with
  | none => Except.error "Missing ./Fixes/questions.csv"
  | some tbl =>
    if pdfPresent then Except.ok (write_coverage (coverage_from_rows tbl))
    else Except.error "Missing ./Fixes/pdf_temp_export.pdf"

/-! ## engine_cli model -/

/-- Python string comparison: lexicographic on code points. -/
def lexLe : List Char → List Char → Bool
  | [], _ => true
  | _ :: _, [] => false
  | c :: cs, d :: ds =>
    if c.toNat < d.toNat then true
    else if d.toNat < c.toNat then false
    else lexLe cs ds

def strLe (a b : String) : Bool := lexLe a.data b.data

def insertStr (x : String) : List String → List String
  | [] => [x]
  | y :: ys => if strLe x y then x :: y :: ys else y :: insertStr x ys

/-- Python `sorted(...)` on distinct strings (insertion sort; any correct sort of a
duplicate-free list agrees with it). -/
def sortStr : List String → List String
  | [] => []
  | x :: xs => insertStr x (sortStr xs)

/-- engine coverage cell: `{"count": n, "ids": l}`. -/
def ECov : Type := String → Nat × List String

structure ESt where
  cov : ECov
  missing : List (String × String)
  total : Nat

def eInit : ESt := { cov := fun _ => (0, []), missing := [], total := 0 }

def eCovSet (cov : ECov) (c : String) (v : Nat × List String) : ECov :=
  fun c2 => if c2 = c then v else cov c2

/-- One iteration of the engine row loop: coverage bumps for every matched
requirement, then the evidence gate. -/
def engineStep (idc tagc : String) (evc : Option String)
    (st : ESt) (row : List (String × String)) : ESt :=
  let qid := pyStrip (getCellD row idc "")
  let tags := norm_tags (getCellD row tagc "")
  let matched := sortStr (REQS.filter (fun r => decide (r ∈ tags)))
  let cov := matched.foldl
    (fun cv r => eCovSet cv r ((cv r).1 + 1, (cv r).2 ++ [qid])) st.cov
  let ev := pyStrip (match evc with | some e => getCellD row e "" | none => "")
  let missing :=
    if "EVIDENCE_REQUIRED" ∈ tags ∧ ev = "" then
      st.missing ++ [(qid, String.intercalate "," (sortStr tags))]
    else st.missing
  { cov := cov, missing := missing, total := st.total + 1 }

def engineAggregate (idc tagc : String) (evc : Option String)
    (rows : List (List (String × String))) : ESt :=
  rows.foldl (engineStep idc tagc evc) eInit

structure ECovRow where
  Requirement : String
  Covered : String
  Count : Nat
  QuestionIDs : String
  deriving DecidableEq

def engineCovRows (st : ESt) : List ECovRow :=
  REQS.map (fun r =>
    { Requirement := r
      Covered := if (st.cov r).1 > 0 then "Y" else "N"
      Count := (st.cov r).1
      QuestionIDs := String.intercalate ";" (st.cov r).2 })

structure ESummary where
  total_questions : Nat
  requirements : List (String × Nat)
  missing_evidence_count : Nat
  deriving DecidableEq

structure EArtifacts where
  covRows : List ECovRow
  gaps : List (String × String)
  summary : ESummary
  deriving DecidableEq

def engineArtifacts (idc tagc : String) (evc : Option String)
    (rows : List (List (String × String))) : EArtifacts :=
  let st := engineAggregate idc tagc evc rows
  { covRows := engineCovRows st
    gaps := st.missing
    summary :=
      { total_questions := st.total
        requirements := REQS.map (fun r => (r, (st.cov r).1))
        missing_evidence_count := st.missing.length } }

/-- Column discovery of `engine_cli.main`: lower-cased header membership, the
discovered name being the lower-case candidate itself. -/
def engineIdcol (cols : List String) : Option String :=
  let lc := cols.map pyLower
  if lc.contains "id" then some "id"
  else if lc.contains "question_id" then some "question_id"
  else none

def engineTagcol (cols : List String) : Option String :=
  let lc := cols.map pyLower
  if lc.contains "tags" then some "tags"
  else if lc.contains "tag" then some "tag"
  else none

def engineEvcol (cols : List String) : Option String :=
  let lc := cols.map pyLower
  if lc.contains "evidence" then some "evidence"
  else if lc.contains "evidence_path" then some "evidence_path"
  else none

/-- Models `engine_cli.main`: exit 2 when the questions file is absent, exit 3 when an
id or tag column cannot be discovered, otherwise the three artifacts. -/
def engineMain (questions : Option Table) : Except Nat EArtifacts :=
  match questions with
  | none => Except.error 2
  | some tbl =>
    match engineIdcol tbl.cols, engineTagcol tbl.cols with
    | some idc, some tagc =>
      Except.ok (engineArtifacts idc tagc (engineEvcol tbl.cols) tbl.rows)
    | _, _ => Except.error 3

/-- Every requirement code a record hits: its tag tokens through `norm_cr`,
the letter codes present among its tags, and the CR codes found in its text. -/
def recCodes (r : Rec) : List String :=
  r.tags.filterMap norm_cr ++
    LETTERS.filter (fun q => decide (q ∈ r.tags)) ++
    (match r.txt with
      | some s => (crMatches s).map (fun k => "CR" ++ toString k)
      | none => [])

/-- Effective tag set of an engine row. -/
def engTags (tagc : String) (row : List (String × String)) : List String :=
  norm_tags (getCellD row tagc "")

/-- Effective id of an engine row. -/
def engQid (idc : String) (row : List (String × String)) : String :=
  pyStrip (getCellD row idc "")

/-- The evidence-gap test and entry of one engine row. -/
def gapOf (idc tagc : String) (evc : Option String)
    (row : List (String × String)) : Option (String × String) :=
  let tags := engTags tagc row
  let ev := pyStrip (match evc with | some e => getCellD row e "" | none => "")
  if "EVIDENCE_REQUIRED" ∈ tags ∧ ev = "" then
    some (engQid idc row, String.intercalate "," (sortStr tags))
  else none

/-- Observational equivalence of record views: same id, same text, and the same
tag set (as lists: equal up to permutation) — two parses of one row that only
differ in set-iteration order. -/
def recEquiv (a b : Rec) : Prop :=
  a.qid = b.qid ∧ a.txt = b.txt ∧ List.Perm a.tags b.tags

example : crMatches "See CR-03 and CR10 for details" = [3, 10] := by decide
example : crMatches "A plan with letter A in prose" = [] := by decide
example : crMatches "cr1 CRCR2 xCR3 CR 4 CR100" = [1, 4] := by decide
example : tokens_from "CR1, CR2" = ["CR1", "CR2"] := by decide
example : tokens_from "CR1;CR2" = ["CR1", "CR2"] := by decide
example : tokens_from "CR1|CR2" = ["CR1", "CR2"] := by decide
example : norm_tags "CR1|CR2" = ["CR1|CR2"] := by decide
example : norm_tags "cr1, EVIDENCE_REQUIRED" = ["CR1", "EVIDENCE_REQUIRED"] := by decide
example : norm_cr "cr-01" = some "CR1" := by decide
example : norm_cr "CR007" = some "CR7" := by decide
example : norm_cr "CR11" = none := by decide
example : norm_cr "CARD" = none := by decide
example :
    coverage_from_rows ⟨["id", "tags"], [[("id", "Q1"), ("tags", "cr1, EVIDENCE_REQUIRED")]]⟩
      "CR1" = ["Q1"] := by decide
example :
    coverage_from_rows ⟨["id", "text"], [[("id", "Q2"), ("text", "See CR-03 and CR10")]]⟩
      "CR3" = ["Q2"] := by decide
example :
    coverage_from_rows ⟨["tags"], [[("tags", "CR1")], [("tags", "CR2")]]⟩ "CR2" = ["row2"] := by
  decide
example :
    (engineAggregate "id" "tags" none
        [[("id", "Q1"), ("tags", "CR1")], [("id", "Q1"), ("tags", "CR1")]]).cov "CR1" =
      (2, ["Q1", "Q1"]) := by decide
example :
    (engineAggregate "id" "tags" (some "evidence")
        [[("id", "Q1"), ("tags", "cr1, EVIDENCE_REQUIRED"), ("evidence", "")]]).missing =
      [("Q1", "CR1,EVIDENCE_REQUIRED")] := by decide

/-! ## Helper lemmas: first-seen deduplication -/

theorem addNew_cons (acc : List String) (x : String) (l : List String) :
    addNew acc (x :: l) = addNew (if x ∈ acc then acc else acc ++ [x]) l := rfl

theorem mem_addNew {x : String} :
    ∀ {l acc : List String}, x ∈ addNew acc l ↔ x ∈ acc ∨ x ∈ l := by
  intro l
  induction l with
  | nil => intro acc; simp [addNew]
  | cons y ys ih =>
    intro acc
    rw [addNew_cons]
    by_cases h : y ∈ acc
    · simp only [if_pos h, ih, List.mem_cons]
      constructor
      · rintro (hx | hx)
        · exact Or.inl hx
        · exact Or.inr (Or.inr hx)
      · rintro (hx | hx | hx)
        · exact Or.inl hx
        · exact Or.inl (hx ▸ h)
        · exact Or.inr hx
    · simp only [if_neg h, ih, List.mem_append, List.mem_singleton, List.mem_cons]
      tauto

theorem nodup_addNew : ∀ (l acc : List String), acc.Nodup → (addNew acc l).Nodup := by
  intro l
  induction l with
  | nil => intro acc h; exact h
  | cons y ys ih =>
    intro acc h
    rw [addNew_cons]
    by_cases hy : y ∈ acc
    · rw [if_pos hy]; exact ih acc h
    · rw [if_neg hy]
      refine ih _ ?_
      simp [List.nodup_append, h, hy]

/-! ## Helper lemmas: the phase0 coverage fold -/

theorem addIf_apply (cov : Cov) (c qid R : String) :
    (addIf cov c qid) R = if R = c ∧ qid ∉ cov R then cov R ++ [qid] else cov R := by
  unfold addIf covSet
  by_cases hRc : R = c
  · subst hRc
    by_cases hq : qid ∈ cov R
    · simp [hq]
    · simp [hq]
  · by_cases hq : qid ∈ cov c
    · simp [hq, hRc]
    · simp [hq, hRc]

theorem foldAddIf_apply (targets : List String) :
    ∀ (cov : Cov) (qid R : String),
      (targets.foldl (fun cv c => addIf cv c qid) cov) R =
        if R ∈ targets ∧ qid ∉ cov R then cov R ++ [qid] else cov R := by
  induction targets with
  | nil => intro cov qid R; simp
  | cons c ts ih =>
    intro cov qid R
    rw [List.foldl_cons, ih]
    rw [addIf_apply]
    by_cases hq : qid ∈ cov R
    · simp [hq]
    · by_cases hRc : R = c
      · subst hRc
        simp [hq, List.mem_append]
      · simp [hRc, hq]

theorem foldl_normcr (tags : List String) :
    ∀ (cov : Cov) (qid : String),
      (tags.foldl
          (fun cv t =>
            match norm_cr t with
            | some cr => addIf cv cr qid
            | none => cv) cov) =
        (tags.filterMap norm_cr).foldl (fun cv c => addIf cv c qid) cov := by
  induction tags with
  | nil => intro cov qid; rfl
  | cons t ts ih =>
    intro cov qid
    rw [List.foldl_cons, List.filterMap_cons]
    cases h : norm_cr t with
    | none => simp only [h]; exact ih cov qid
    | some cr => simp only [h, List.foldl_cons]; exact ih _ qid

theorem foldl_guard_addIf (P : String → Prop) [DecidablePred P] (ls : List String) :
    ∀ (cov : Cov) (qid : String),
      (ls.foldl (fun cv c => if P c then addIf cv c qid else cv) cov) =
        (ls.filter (fun c => decide (P c))).foldl (fun cv c => addIf cv c qid) cov := by
  induction ls with
  | nil => intro cov qid; rfl
  | cons c cs ih =>
    intro cov qid
    by_cases h : P c
    · simp only [List.foldl_cons, if_pos h, List.filter_cons, decide_eq_true h]
      exact ih _ qid
    · simp only [List.foldl_cons, if_neg h, List.filter_cons, decide_eq_false h]
      exact ih cov qid

theorem processRec_apply (cov : Cov) (r : Rec) (R : String) :
    (processRec cov r) R =
      if R ∈ recCodes r ∧ r.qid ∉ cov R then cov R ++ [r.qid] else cov R := by
  obtain ⟨qid, tags, txt⟩ := r
  cases txt with
  | none =>
    simp only [processRec, recCodes]
    rw [foldl_normcr, foldl_guard_addIf (fun q => q ∈ tags), foldAddIf_apply, foldAddIf_apply]
    simp only [List.append_nil, List.mem_append]
    by_cases hq : qid ∈ cov R
    · simp [hq]
    · by_cases h1 : R ∈ tags.filterMap norm_cr
      · simp [h1, hq, List.mem_append]
      · simp [h1, hq]
  | some s =>
    simp only [processRec, recCodes]
    rw [foldl_normcr, foldl_guard_addIf (fun q => q ∈ tags),
      ← List.foldl_map (fun k => "CR" ++ toString k) (fun cv c => addIf cv c qid),
      foldAddIf_apply, foldAddIf_apply, foldAddIf_apply]
    simp only [List.mem_append]
    by_cases hq : qid ∈ cov R
    · simp [hq]
    · by_cases h1 : R ∈ tags.filterMap norm_cr
      · simp [h1, hq, List.mem_append]
      · by_cases h2 : R ∈ LETTERS.filter (fun q => decide (q ∈ tags))
        · simp [h1, h2, hq, List.mem_append]
        · simp [h1, h2, hq]

theorem coverFrom_apply (recs : List Rec) :
    ∀ (cov : Cov) (R : String),
      coverFrom cov recs R =
        addNew (cov R) ((recs.filter (fun r => decide (R ∈ recCodes r))).map Rec.qid) := by
  induction recs with
  | nil => intro cov R; rfl
  | cons r rs ih =>
    intro cov R
    unfold coverFrom at *
    rw [List.foldl_cons, ih]
    by_cases h : R ∈ recCodes r
    · rw [List.filter_cons_of_pos (by simpa using h), List.map_cons, addNew_cons,
        processRec_apply]
      by_cases hq : r.qid ∈ cov R
      · simp [h, hq]
      · simp [h, hq]
    · rw [List.filter_cons_of_neg (by simpa using h), processRec_apply]
      simp [h]

/-- The per-code content of `coverage_from_rows`: the ids of the matching
records, in input order, first occurrence kept. -/
theorem coverage_from_rows_apply (tbl : Table) (R : String) :
    coverage_from_rows tbl R =
      dedupKeepFirst (((tableRecs tbl).filter (fun r => decide (R ∈ recCodes r))).map Rec.qid) := by
  unfold coverage_from_rows
  by_cases h : tbl.rows = []
  · have : tableRecs tbl = [] := by
      unfold tableRecs
      rw [h]
      rfl
    simp [h, this, covInit, dedupKeepFirst, addNew]
  · rw [if_neg h, coverFrom_apply]
    rfl

/-! ## Helper lemmas: insertion sort -/

theorem insertStr_perm (x : String) : ∀ l : List String, List.Perm (insertStr x l) (x :: l) := by
  intro l
  induction l with
  | nil => exact List.Perm.refl _
  | cons y ys ih =>
    unfold insertStr
    by_cases h : strLe x y = true
    · rw [if_pos h]
    · rw [if_neg h]
      exact (ih.cons y).trans (List.Perm.swap x y ys)

theorem sortStr_perm : ∀ l : List String, List.Perm (sortStr l) l := by
  intro l
  induction l with
  | nil => exact List.Perm.refl _
  | cons x xs ih => exact (insertStr_perm x (sortStr xs)).trans (ih.cons x)

theorem mem_sortStr {x : String} {l : List String} : x ∈ sortStr l ↔ x ∈ l :=
  (sortStr_perm l).mem_iff

theorem nodup_sortStr {l : List String} (h : l.Nodup) : (sortStr l).Nodup :=
  (sortStr_perm l).nodup_iff.mpr h

theorem REQS_nodup : REQS.Nodup := by decide

/-! ## Helper lemmas: the engine coverage fold -/

theorem bumpFold_apply (qid : String) :
    ∀ (l : List String), l.Nodup → ∀ (cv : ECov) (R : String),
      (l.foldl (fun cv r => eCovSet cv r ((cv r).1 + 1, (cv r).2 ++ [qid])) cv) R =
        if R ∈ l then ((cv R).1 + 1, (cv R).2 ++ [qid]) else cv R := by
  intro l
  induction l with
  | nil => intro _ cv R; simp
  | cons x xs ih =>
    intro hnd cv R
    rw [List.foldl_cons, ih hnd.of_cons]
    by_cases hx : R = x
    · subst hx
      have hnotin : R ∉ xs := (List.nodup_cons.mp hnd).1
      simp [hnotin, eCovSet]
    · by_cases hmem : R ∈ xs
      · simp [hmem, hx, eCovSet]
      · simp [hmem, hx, eCovSet]

theorem engineStep_cov (idc tagc : String) (evc : Option String)
    (st : ESt) (row : List (String × String)) (R : String) :
    (engineStep idc tagc evc st row).cov R =
      if R ∈ REQS ∧ R ∈ engTags tagc row then
        ((st.cov R).1 + 1, (st.cov R).2 ++ [engQid idc row])
      else st.cov R := by
  unfold engineStep
  simp only
  rw [bumpFold_apply _ _ (nodup_sortStr (REQS_nodup.filter _))]
  have hmem : (R ∈ sortStr (REQS.filter (fun r => decide (r ∈ norm_tags (getCellD row tagc ""))))) ↔
      (R ∈ REQS ∧ R ∈ engTags tagc row) := by
    rw [mem_sortStr, List.mem_filter]
    simp [engTags]
  by_cases h : R ∈ REQS ∧ R ∈ engTags tagc row
  · rw [if_pos (hmem.mpr h), if_pos h]
    rfl
  · rw [if_neg (fun hc => h (hmem.mp hc)), if_neg h]

theorem engineCov_apply (idc tagc : String) (evc : Option String) :
    ∀ (rows : List (List (String × String))) (st : ESt) (R : String),
      ((rows.foldl (engineStep idc tagc evc) st).cov R) =
        ((st.cov R).1 +
            ((rows.filter (fun row => decide (R ∈ REQS ∧ R ∈ engTags tagc row))).map
              (engQid idc)).length,
          (st.cov R).2 ++
            (rows.filter (fun row => decide (R ∈ REQS ∧ R ∈ engTags tagc row))).map
              (engQid idc)) := by
  intro rows
  induction rows with
  | nil => intro st R; simp
  | cons row rs ih =>
    intro st R
    rw [List.foldl_cons, ih]
    by_cases h : R ∈ REQS ∧ R ∈ engTags tagc row
    · rw [List.filter_cons_of_pos (by simpa using h), List.map_cons]
      rw [engineStep_cov, if_pos h]
      simp only [List.length_cons, List.cons_append, List.nil_append, List.append_assoc,
        Prod.mk.injEq]
      exact ⟨by omega, by simp⟩
    · rw [List.filter_cons_of_neg (by simpa using h)]
      rw [engineStep_cov, if_neg h]

theorem engineMissing_apply (idc tagc : String) (evc : Option String) :
    ∀ (rows : List (List (String × String))) (st : ESt),
      (rows.foldl (engineStep idc tagc evc) st).missing =
        st.missing ++ rows.filterMap (gapOf idc tagc evc) := by
  intro rows
  induction rows with
  | nil => intro st; simp
  | cons row rs ih =>
    intro st
    rw [List.foldl_cons, ih, List.filterMap_cons]
    unfold engineStep gapOf engTags engQid
    simp only
    split_ifs with h
    · simp
    · simp

/-! ## Helper lemmas: the text scanner finds only CR1..CR10 -/

theorem digitTail_bounds (l : List Char) (k : Nat) (h : digitTail l = some k) :
    1 ≤ k ∧ k ≤ 10 := by
  unfold digitTail at h
  split at h
  · split at h
    · split at h
      · injection h with h2
        omega
      · split at h
        · split at h
          · split at h
            · injection h with h2
              omega
            · exact absurd h (by simp)
          · exact absurd h (by simp)
        · exact absurd h (by simp)
    · exact absurd h (by simp)
  · exact absurd h (by simp)

theorem matchCRAt_bounds (l : List Char) (k : Nat) (h : matchCRAt l = some k) :
    1 ≤ k ∧ k ≤ 10 := by
  unfold matchCRAt at h
  split at h
  · split at h
    · exact digitTail_bounds _ _ h
    · exact absurd h (by simp)
  · exact absurd h (by simp)

theorem crScan_bounds :
    ∀ (l : List Char) (b : Bool) (k : Nat), k ∈ crScan l b → 1 ≤ k ∧ k ≤ 10 := by
  intro l
  induction l with
  | nil => intro b k hk; simp [crScan] at hk
  | cons c cs ih =>
    intro b k hk
    cases b with
    | true =>
      exact ih (isWordChar c) k (by simpa [crScan] using hk)
    | false =>
      simp only [crScan, Bool.false_eq_true, if_false] at hk
      cases hm : matchCRAt (c :: cs) with
      | none =>
        rw [hm] at hk
        exact ih _ k hk
      | some j =>
        rw [hm] at hk
        rcases List.mem_cons.mp hk with h | h
        · exact h ▸ matchCRAt_bounds _ _ hm
        · exact ih _ k h

theorem crMatches_bounds (s : String) (k : Nat) (h : k ∈ crMatches s) :
    1 ≤ k ∧ k ≤ 10 :=
  crScan_bounds s.data false k h

/-! ## Helper lemmas: shape of `norm_cr` results -/

theorem norm_cr_shape (t R : String) (h : norm_cr t = some R) :
    ∃ k, 1 ≤ k ∧ k ≤ 10 ∧ R = "CR" ++ toString k := by
  unfold norm_cr at h
  split at h
  · split at h
    · rename_i hcond
      injection h with h2
      exact ⟨_, hcond.2.2.2.2.1, hcond.2.2.2.2.2, h2.symm⟩
    · exact absurd h (by simp)
  · exact absurd h (by simp)

/-- A CR code is never one of the single-letter codes. -/
theorem CR_ne_letter (k : Nat) (R : String) (hR : R ∈ LETTERS) :
    "CR" ++ toString k ≠ R := by
  intro h
  have hd : ('C' :: 'R' :: (toString k).data) = R.data := congrArg String.data h
  have hlen := congrArg List.length hd
  fin_cases hR <;> simp [String.data] at hlen

/-! ## Helper lemmas: splitting at a delimiter -/

theorem splitOn_append (p : Char → Bool) (d : Char) (hd : p d = true) :
    ∀ (a b : List Char) (acc : List Char),
      splitOn p (a ++ d :: b) acc = splitOn p a acc ++ splitOn p b [] := by
  intro a
  induction a with
  | nil =>
    intro b acc
    by_cases hacc : acc = []
    · simp [splitOn, hd, hacc]
    · simp [splitOn, hd, hacc]
  | cons c cs ih =>
    intro b acc
    by_cases hc : p c = true
    · by_cases hacc : acc = []
      · simp [splitOn, hc, hacc, ih]
      · simp [splitOn, hc, hacc, ih]
    · simp [splitOn, hc, ih]

theorem mem_dedupKeepFirst {x : String} {l : List String} :
    x ∈ dedupKeepFirst l ↔ x ∈ l := by
  unfold dedupKeepFirst
  rw [mem_addNew]
  simp

theorem nodup_dedupKeepFirst (l : List String) : (dedupKeepFirst l).Nodup :=
  nodup_addNew l [] List.nodup_nil

/-- Function `tokens_from` without the empty-input guard (the guard is redundant: an
empty string splits into no tokens anyway). -/
theorem tokens_from_eq (val : String) :
    tokens_from val =
      dedupKeepFirst
        ((splitOn isP0Delim val.data []).map (fun t => pyUpper (String.mk (trimChars t)))) := by
  unfold tokens_from
  by_cases h : val = ""
  · subst h
    rfl
  · rw [if_neg h]

theorem norm_tags_eq (val : String) :
    norm_tags val =
      dedupKeepFirst
        (((splitOn isEngDelim val.data []).map
            (fun t => String.mk (((trimChars t).map Char.toUpper).filter (fun c => c ≠ ' ')))).filter
          (fun t => t ≠ "")) := by
  unfold norm_tags
  by_cases h : val = ""
  · subst h
    rfl
  · rw [if_neg h]

/-- Splitting is compositional across any delimiter character: the token set of
`a · d · b` is the union of the token sets of `a` and `b`. -/
theorem mem_tokens_from_append (a b : String) (d : Char) (hd : isP0Delim d = true)
    (x : String) :
    x ∈ tokens_from (a ++ String.mk [d] ++ b) ↔ x ∈ tokens_from a ∨ x ∈ tokens_from b := by
  rw [tokens_from_eq, tokens_from_eq, tokens_from_eq,
    mem_dedupKeepFirst, mem_dedupKeepFirst, mem_dedupKeepFirst]
  have hdata : (a ++ String.mk [d] ++ b).data = a.data ++ d :: b.data := by
    rw [String.data_append, String.data_append]
    simp
  rw [hdata, splitOn_append isP0Delim d hd, List.map_append, List.mem_append]

theorem mem_norm_tags_append (a b : String) (d : Char) (hd : isEngDelim d = true)
    (x : String) :
    x ∈ norm_tags (a ++ String.mk [d] ++ b) ↔ x ∈ norm_tags a ∨ x ∈ norm_tags b := by
  rw [norm_tags_eq, norm_tags_eq, norm_tags_eq,
    mem_dedupKeepFirst, mem_dedupKeepFirst, mem_dedupKeepFirst]
  have hdata : (a ++ String.mk [d] ++ b).data = a.data ++ d :: b.data := by
    rw [String.data_append, String.data_append]
    simp
  rw [hdata, splitOn_append isEngDelim d hd, List.map_append, List.filter_append,
    List.mem_append]

/-! ## Helper lemmas: digit strings with leading zeros -/

theorem natOfDigits_replicate_zero :
    ∀ (m : Nat) (ds : List Char),
      natOfDigits (List.replicate m '0' ++ ds) = natOfDigits ds := by
  intro m ds
  unfold natOfDigits
  rw [List.foldl_append]
  have h0 : ∀ m : Nat, (List.replicate m '0').foldl (fun n c => 10 * n + (c.toNat - 48)) 0 = 0 := by
    intro m
    induction m with
    | zero => rfl
    | succ j ihj => simpa [List.replicate_succ] using ihj
  rw [h0]

theorem allDigits_replicate_append (m : Nat) (ds : List Char)
    (h : allDigits ds = true) : allDigits (List.replicate m '0' ++ ds) = true := by
  unfold allDigits at *
  rw [List.all_append, h, Bool.and_true]
  rw [List.all_eq_true]
  intro c hc
  rw [List.eq_of_mem_replicate hc]
  rfl

/-! ## Helper lemmas: synthesized ids are never empty -/

theorem row_ne_empty (n : Nat) : "row" ++ toString n ≠ "" := by
  intro h
  have hd : ('r' :: 'o' :: 'w' :: (toString n).data) = ([] : List Char) :=
    congrArg String.data h
  simp at hd

theorem mkQid_ne_empty (idf : Option String) (row : List (String × String)) (idx : Nat) :
    mkQid idf row idx ≠ "" := by
  unfold mkQid
  split
  · exact row_ne_empty idx
  · split
    · split
      · exact row_ne_empty idx
      · rename_i hs
        exact hs
    · exact row_ne_empty idx

theorem mkRecs_qid_ne_empty (idf txtf : Option String) (tagfs : List String) :
    ∀ (rows : List (List (String × String))) (i : Nat) (r : Rec),
      r ∈ mkRecs idf txtf tagfs i rows → r.qid ≠ "" := by
  intro rows
  induction rows with
  | nil => intro i r hr; simp [mkRecs] at hr
  | cons row rs ih =>
    intro i r hr
    rcases List.mem_cons.mp hr with h | h
    · rw [h]
      exact mkQid_ne_empty idf row i
    · exact ih (i + 1) r h

/-! ## Helper lemmas: the lexicographic order is linear, so sorting a
duplicate-free set is canonical -/

theorem lexLe_total : ∀ a b : List Char, lexLe a b = true ∨ lexLe b a = true := by
  intro a
  induction a with
  | nil => intro b; exact Or.inl rfl
  | cons c cs ih =>
    intro b
    cases b with
    | nil => exact Or.inr rfl
    | cons d ds =>
      unfold lexLe
      by_cases h1 : c.toNat < d.toNat
      · left
        simp [h1]
      · by_cases h2 : d.toNat < c.toNat
        · right
          simp [h2]
        · rcases ih ds with h | h
          · left
            simp [h1, h2, h]
          · right
            simp [h1, h2, h]

theorem lexLe_antisymm : ∀ a b : List Char,
    lexLe a b = true → lexLe b a = true → a = b := by
  intro a
  induction a with
  | nil =>
    intro b _ hba
    cases b with
    | nil => rfl
    | cons d ds => exact absurd hba (by simp [lexLe])
  | cons c cs ih =>
    intro b hab hba
    cases b with
    | nil => exact absurd hab (by simp [lexLe])
    | cons d ds =>
      unfold lexLe at hab hba
      by_cases h1 : c.toNat < d.toNat
      · rw [if_neg (by omega), if_pos h1] at hba
        exact absurd hba (by simp)
      · by_cases h2 : d.toNat < c.toNat
        · rw [if_neg h1, if_pos h2] at hab
          exact absurd hab (by simp)
        · rw [if_neg h1, if_neg h2] at hab
          rw [if_neg (by omega), if_neg (by omega)] at hba
          have heq : c.toNat = d.toNat := by omega
          have hcd : c = d := Char.ext (UInt32.ext heq)
          rw [hcd, ih ds hab hba]

theorem lexLe_trans : ∀ a b c : List Char,
    lexLe a b = true → lexLe b c = true → lexLe a c = true := by
  intro a
  induction a with
  | nil => intro b c _ _; rfl
  | cons x xs ih =>
    intro b c hab hbc
    cases b with
    | nil => exact absurd hab (by simp [lexLe])
    | cons y ys =>
      cases c with
      | nil => exact absurd hbc (by simp [lexLe])
      | cons z zs =>
        unfold lexLe at hab hbc ⊢
        by_cases h1 : x.toNat < y.toNat
        · by_cases h2 : y.toNat < z.toNat
          · simp [show x.toNat < z.toNat by omega]
          · rw [if_neg h2] at hbc
            by_cases h3 : z.toNat < y.toNat
            · rw [if_pos h3] at hbc
              exact absurd hbc (by simp)
            · simp [show x.toNat < z.toNat by omega]
        · rw [if_neg h1] at hab
          by_cases h4 : y.toNat < x.toNat
          · rw [if_pos h4] at hab
            exact absurd hab (by simp)
          · rw [if_neg h4] at hab
            by_cases h2 : y.toNat < z.toNat
            · simp [show x.toNat < z.toNat by omega]
            · rw [if_neg h2] at hbc
              by_cases h3 : z.toNat < y.toNat
              · rw [if_pos h3] at hbc
                exact absurd hbc (by simp)
              · rw [if_neg h3] at hbc
                rw [if_neg (show ¬x.toNat < z.toNat by omega),
                  if_neg (show ¬z.toNat < x.toNat by omega)]
                exact ih ys zs hab hbc

theorem strLe_total (a b : String) : strLe a b = true ∨ strLe b a = true :=
  lexLe_total a.data b.data

theorem strLe_antisymm (a b : String) (hab : strLe a b = true) (hba : strLe b a = true) :
    a = b := by
  have hd := lexLe_antisymm a.data b.data hab hba
  cases a
  cases b
  exact congrArg String.mk hd

theorem strLe_trans (a b c : String) (hab : strLe a b = true) (hbc : strLe b c = true) :
    strLe a c = true :=
  lexLe_trans a.data b.data c.data hab hbc

theorem insertStr_sorted (x : String) :
    ∀ l : List String, l.Sorted (fun a b => strLe a b = true) →
      (insertStr x l).Sorted (fun a b => strLe a b = true) := by
  intro l
  induction l with
  | nil => intro _; simp [insertStr]
  | cons y ys ih =>
    intro hs
    unfold insertStr
    by_cases h : strLe x y = true
    · rw [if_pos h]
      rw [List.sorted_cons]
      refine ⟨?_, hs⟩
      intro b hb
      rcases List.mem_cons.mp hb with hby | hbys
      · exact hby ▸ h
      · exact strLe_trans x y b h ((List.sorted_cons.mp hs).1 b hbys)
    · rw [if_neg h]
      have hyx : strLe y x = true := (strLe_total x y).resolve_left h
      rw [List.sorted_cons]
      refine ⟨?_, ih (List.sorted_cons.mp hs).2⟩
      intro b hb
      have hmem := (insertStr_perm x ys).mem_iff.mp hb
      rcases List.mem_cons.mp hmem with hbx | hbys
      · exact hbx ▸ hyx
      · exact (List.sorted_cons.mp hs).1 b hbys

theorem sortStr_sorted : ∀ l : List String, (sortStr l).Sorted (fun a b => strLe a b = true) := by
  intro l
  induction l with
  | nil => simp [sortStr]
  | cons x xs ih => exact insertStr_sorted x (sortStr xs) ih

/-- Sorting is canonical on permutations: the engine output does not depend on
the iteration order of the tag set. -/
theorem sortStr_eq_of_perm {l₁ l₂ : List String} (h : List.Perm l₁ l₂) :
    sortStr l₁ = sortStr l₂ := by
  have hperm : List.Perm (sortStr l₁) (sortStr l₂) :=
    ((sortStr_perm l₁).trans h).trans (sortStr_perm l₂).symm
  exact @List.eq_of_perm_of_sorted String (fun a b => strLe a b = true)
    ⟨fun a b hab hba => strLe_antisymm a b hab hba⟩ _ _
    hperm (sortStr_sorted l₁) (sortStr_sorted l₂)

theorem recCodes_mem_of_equiv {a b : Rec} (h : recEquiv a b) (R : String) :
    R ∈ recCodes a ↔ R ∈ recCodes b := by
  obtain ⟨hq, ht, hp⟩ := h
  unfold recCodes
  rw [ht]
  simp only [List.mem_append, List.mem_filterMap, List.mem_filter]
  constructor
  · rintro ((⟨t, htag, hcr⟩ | ⟨hl, htag⟩) | htxt)
    · exact Or.inl (Or.inl ⟨t, hp.mem_iff.mp htag, hcr⟩)
    · exact Or.inl (Or.inr ⟨hl, by simpa using hp.mem_iff.mp (by simpa using htag)⟩)
    · exact Or.inr htxt
  · rintro ((⟨t, htag, hcr⟩ | ⟨hl, htag⟩) | htxt)
    · exact Or.inl (Or.inl ⟨t, hp.mem_iff.mpr htag, hcr⟩)
    · exact Or.inl (Or.inr ⟨hl, by simpa using hp.mem_iff.mpr (by simpa using htag)⟩)
    · exact Or.inr htxt

/-- C7: the engine evidence gate emits exactly the rows whose normalized tag
set contains the token EVIDENCE_REQUIRED and whose evidence cell trims to
empty, as pairs of id and sorted comma-joined tags, in input order; rows
without the marker produce nothing even with empty evidence. -/
theorem C7_evidence_gate (idc tagc : String) (evc : Option String)
    (rows : List (List (String × String))) :
    (engineAggregate idc tagc evc rows).missing = rows.filterMap (gapOf idc tagc evc) ∧
    (engineAggregate "id" "tags" (some "evidence")
        [[("id", "Q1"), ("tags", "cr1, EVIDENCE_REQUIRED"), ("evidence", "")]]).missing =
      [("Q1", "CR1,EVIDENCE_REQUIRED")] ∧
    (engineAggregate "id" "tags" (some "evidence")
        [[("id", "Q2"), ("tags", "cr1"), ("evidence", "")]]).missing = [] ∧
    (engineAggregate "id" "tags" (some "evidence")
        [[("id", "Q3"), ("tags", "EVIDENCE_REQUIRED"), ("evidence", "  doc.pdf ")]]).missing =
      [] := by
  refine ⟨?_, by decide, by decide, by decide⟩
  unfold engineAggregate
  rw [engineMissing_apply]
  rfl

/-- C8: for every requirement code the phase0 id list equals the input-order
record sequence filtered to the records matching that code, mapped to ids,
with only the first occurrence of an id kept — a record matched through
several paths, or several tag columns, appears once. -/
theorem C8_order_preservation (tbl : Table) (R : String) :
    coverage_from_rows tbl R =
      dedupKeepFirst
        (((tableRecs tbl).filter (fun r => decide (R ∈ recCodes r))).map Rec.qid) ∧
    coverFrom covInit
        [{ qid := "Q1", tags := ["CR1"], txt := some "see CR1 again" }] "CR1" = ["Q1"] ∧
    coverFrom covInit
        [{ qid := "Q2", tags := ["B"], txt := none },
          { qid := "Q1", tags := ["B"], txt := none }] "B" = ["Q2", "Q1"] :=
  ⟨coverage_from_rows_apply tbl R, by decide, by decide⟩

/-- C1 counterexample: two input rows sharing the id Q1 and the tag CR1 make
engine_cli list Q1 twice under CR1 — the per-code id list is not duplicate-free
for every input record sequence. -/
theorem C1_counterexample :
    ((engineAggregate "id" "tags" none
        [[("id", "Q1"), ("tags", "CR1")], [("id", "Q1"), ("tags", "CR1")]]).cov "CR1").2 =
      ["Q1", "Q1"] ∧
    ¬ ((engineAggregate "id" "tags" none
        [[("id", "Q1"), ("tags", "CR1")], [("id", "Q1"), ("tags", "CR1")]]).cov "CR1").2.Nodup := by
  exact ⟨by decide, by decide⟩

/-- C1 amended: Count always equals the length of the id list in both
emitters; phase0 per-code id lists are duplicate-free for every input; the
engine per-code id lists are duplicate-free provided the input rows have
pairwise distinct (stripped) ids. -/
theorem C1_amended (tbl : Table) (idc tagc : String) (evc : Option String)
    (rows : List (List (String × String))) (R : String) (e : CovRow)
    (he : e ∈ write_coverage (coverage_from_rows tbl))
    (hids : (rows.map (engQid idc)).Nodup) :
    (coverage_from_rows tbl R).Nodup ∧
    e.Count = (coverage_from_rows tbl e.Requirement).length ∧
    ((engineAggregate idc tagc evc rows).cov R).1 =
      ((engineAggregate idc tagc evc rows).cov R).2.length ∧
    ((engineAggregate idc tagc evc rows).cov R).2.Nodup := by
  refine ⟨?_, ?_, ?_, ?_⟩
  · rw [coverage_from_rows_apply]
    exact nodup_dedupKeepFirst _
  · unfold write_coverage at he
    obtain ⟨req, _, rfl⟩ := List.mem_map.mp he
    rfl
  · unfold engineAggregate
    rw [engineCov_apply]
    simp [eInit]
  · unfold engineAggregate
    rw [engineCov_apply]
    simp only [eInit, List.nil_append]
    exact ((List.filter_sublist rows).map (engQid idc)).nodup hids

/-- C1 witness. -/
theorem C1_witness :
    ((engineAggregate "id" "tags" none [[("id", "Q1"), ("tags", "CR1")]]).cov "CR1").1 =
      ((engineAggregate "id" "tags" none [[("id", "Q1"), ("tags", "CR1")]]).cov "CR1").2.length ∧
    ((engineAggregate "id" "tags" none [[("id", "Q1"), ("tags", "CR1")]]).cov "CR1").2.Nodup := by
  have h := C1_amended ⟨["id", "tags"], [[("id", "Q1"), ("tags", "CR1")]]⟩ "id" "tags" none
    [[("id", "Q1"), ("tags", "CR1")]] "CR1"
    { Requirement := "CR1", Covered := "Y", Count := 1, QuestionIDs := "Q1",
      ProposedAddIfGap := "" }
    (by decide) (by decide)
  exact ⟨h.2.2.1, h.2.2.2⟩

/-- C2 counterexample: under the engine normalizer the pipe is not a
delimiter, so CR1;CR2 and CR1|CR2 do not normalize to the same set. -/
theorem C2_counterexample :
    norm_tags "CR1;CR2" = ["CR1", "CR2"] ∧ norm_tags "CR1|CR2" = ["CR1|CR2"] := by
  exact ⟨by decide, by decide⟩

/-- C2 amended: phase0 tokens_from is delimiter-agnostic over comma, semicolon,
pipe, slash and whitespace (splitting at any such character unions the token
sets, empty input yields the empty set, and the three example strings agree);
engine norm_tags enjoys the same property only for comma and semicolon. -/
theorem C2_amended (a b : String) (d e : Char) (x : String)
    (hd : isP0Delim d = true) (he : isEngDelim e = true) :
    (x ∈ tokens_from (a ++ String.mk [d] ++ b) ↔ x ∈ tokens_from a ∨ x ∈ tokens_from b) ∧
    (x ∈ norm_tags (a ++ String.mk [e] ++ b) ↔ x ∈ norm_tags a ∨ x ∈ norm_tags b) ∧
    tokens_from "" = [] ∧ norm_tags "" = [] ∧
    tokens_from "CR1, CR2" = ["CR1", "CR2"] ∧
    tokens_from "CR1;CR2" = ["CR1", "CR2"] ∧
    tokens_from "CR1|CR2" = ["CR1", "CR2"] ∧
    tokens_from "CR1/CR2" = ["CR1", "CR2"] ∧
    tokens_from "CR1  CR2" = ["CR1", "CR2"] ∧
    norm_tags "CR1, CR2" = ["CR1", "CR2"] ∧
    norm_tags "CR1;CR2" = ["CR1", "CR2"] :=
  ⟨mem_tokens_from_append a b d hd x, mem_norm_tags_append a b e he x,
    rfl, rfl, by decide, by decide, by decide, by decide, by decide, by decide, by decide⟩

/-- C2 witness. -/
theorem C2_witness :
    ("CR2" ∈ tokens_from ("CR1" ++ String.mk ['|'] ++ "CR2") ↔
      "CR2" ∈ tokens_from "CR1" ∨ "CR2" ∈ tokens_from "CR2") ∧
    ("CR2" ∈ norm_tags ("CR1" ++ String.mk [';'] ++ "CR2") ↔
      "CR2" ∈ norm_tags "CR1" ∨ "CR2" ∈ norm_tags "CR2") := by
  have h := C2_amended "CR1" "CR2" '|' ';' "CR2" (by decide) (by decide)
  exact ⟨h.1, h.2.1⟩

/-- C4: both coverage tables contain exactly one row per requirement code of
the fixed enumeration CR1..CR10, A..G in that order (17 rows) for every input;
Covered is Y exactly when the id list is non-empty; zero input rows give 17
rows with Covered=N, Count=0 and empty QuestionIDs. -/
theorem C4_fixed_enumeration (cov : Cov) (st : ESt) (tbl0 : Table)
    (idc tagc : String) (evc : Option String) (rows : List (List (String × String)))
    (e : CovRow) (e2 : ECovRow)
    (he : e ∈ write_coverage cov)
    (he2 : e2 ∈ engineCovRows (engineAggregate idc tagc evc rows)) :
    (write_coverage cov).length = 17 ∧
    (write_coverage cov).map CovRow.Requirement = REQS ∧
    (engineCovRows st).length = 17 ∧
    (engineCovRows st).map ECovRow.Requirement = REQS ∧
    (e.Covered = "Y" ↔ cov e.Requirement ≠ []) ∧
    (e2.Covered = "Y" ↔ ((engineAggregate idc tagc evc rows).cov e2.Requirement).2 ≠ []) ∧
    write_coverage (coverage_from_rows ⟨tbl0.cols, []⟩) =
      REQS.map (fun req =>
        { Requirement := req, Covered := "N", Count := 0, QuestionIDs := "",
          ProposedAddIfGap := "ADD_" ++ req ++ "_QUESTION" }) ∧
    engineCovRows (engineAggregate idc tagc evc []) =
      REQS.map (fun r => { Requirement := r, Covered := "N", Count := 0, QuestionIDs := "" }) := by
  refine ⟨?_, ?_, ?_, ?_, ?_, ?_, ?_, ?_⟩
  · simp [write_coverage]
    decide
  · simp [write_coverage, List.map_map]
    rfl
  · simp [engineCovRows]
    decide
  · simp [engineCovRows, List.map_map]
    rfl
  · unfold write_coverage at he
    obtain ⟨req, _, rfl⟩ := List.mem_map.mp he
    by_cases h : cov req = []
    · simp [h]
    · simp [h]
  · unfold engineCovRows at he2
    obtain ⟨req, _, rfl⟩ := List.mem_map.mp he2
    have hcl : ((engineAggregate idc tagc evc rows).cov req).1 =
        ((engineAggregate idc tagc evc rows).cov req).2.length := by
      unfold engineAggregate
      rw [engineCov_apply]
      simp [eInit]
    simp only [hcl]
    by_cases h : ((engineAggregate idc tagc evc rows).cov req).2 = []
    · simp [h]
    · have hpos : 0 < ((engineAggregate idc tagc evc rows).cov req).2.length :=
        List.length_pos.mpr h
      simp [hpos, h]
  · have hzero : coverage_from_rows ⟨tbl0.cols, []⟩ = covInit := rfl
    rw [hzero]
    decide
  · have hzero : engineAggregate idc tagc evc [] = eInit := rfl
    rw [hzero]
    decide

/-- C4 witness. -/
theorem C4_witness :
    (write_coverage covInit).length = 17 ∧
    ({ Requirement := "CR1", Covered := "N", Count := 0, QuestionIDs := "",
        ProposedAddIfGap := "ADD_CR1_QUESTION" : CovRow }.Covered = "Y" ↔
      covInit "CR1" ≠ []) := by
  have h := C4_fixed_enumeration covInit eInit ⟨[], []⟩ "id" "tags" none []
    { Requirement := "CR1", Covered := "N", Count := 0, QuestionIDs := "",
      ProposedAddIfGap := "ADD_CR1_QUESTION" }
    { Requirement := "CR1", Covered := "N", Count := 0, QuestionIDs := "" }
    (by decide) (by decide)
  exact ⟨h.1, h.2.2.2.2.1⟩

/-- C10: phase0 record ids are never empty: the positional id is synthesized
when there is no identifier column, when the identifier cell is missing, and
when the identifier cell is the empty string, so every id in the coverage
output is non-empty. -/
theorem C10_nonempty_ids (tbl : Table) (R q : String)
    (hq : q ∈ coverage_from_rows tbl R)
    (row : List (String × String)) (idx : Nat) (f s : String) :
    q ≠ "" ∧
    mkQid none row idx = "row" ++ toString idx ∧
    (getCell row f = none → mkQid (some f) row idx = "row" ++ toString idx) ∧
    (getCell row f = some "" → mkQid (some f) row idx = "row" ++ toString idx) ∧
    (getCell row f = some s → s ≠ "" → mkQid (some f) row idx = s) ∧
    coverage_from_rows ⟨["tags"], [[("tags", "cr1")], [("tags", "A")]]⟩ "A" = ["row2"] := by
  refine ⟨?_, rfl, ?_, ?_, ?_, by decide⟩
  · rw [coverage_from_rows_apply] at hq
    have hq2 := mem_dedupKeepFirst.mp hq
    obtain ⟨r, hr, rfl⟩ := List.mem_map.mp hq2
    exact mkRecs_qid_ne_empty _ _ _ tbl.rows 1 r (List.mem_filter.mp hr).1
  · intro h
    simp only [mkQid]
    rw [h]
  · intro h
    simp only [mkQid]
    rw [h]
    rfl
  · intro h hne
    simp only [mkQid]
    rw [h]
    show (if s = "" then "row" ++ toString idx else s) = s
    rw [if_neg hne]

/-- C10 witness. -/
theorem C10_witness :
    "row1" ≠ "" ∧ mkQid (some "id") [("tags", "cr1")] 4 = "row" ++ toString 4 := by
  have h := C10_nonempty_ids ⟨["tags"], [[("tags", "cr1")]]⟩ "CR1" "row1" (by decide)
    [("tags", "cr1")] 4 "id" "x"
  exact ⟨h.1, h.2.2.1 (by decide)⟩

/-- C5 counterexample: engine_cli matches tags only by exact equality with the
canonical codes, so the zero-padded token CR01 is not recorded under CR1. -/
theorem C5_counterexample :
    ((engineAggregate "id" "tags" none [[("id", "Q1"), ("tags", "CR01")]]).cov "CR1").2 = [] ∧
    norm_tags "CR01" = ["CR01"] ∧
    norm_tags "CR-1" = ["CR-1"] := by
  exact ⟨by decide, by decide, by decide⟩

/-- C5 amended: in phase0, a token whose separator-stripped upper-casing is CR
followed by any run of zeros and the digits of k with 1 ≤ k ≤ 10 normalizes to
the canonical code CRk, and a record carrying such a token is recorded under
CRk; engine_cli recognizes only the exact canonical token. -/
theorem C5_amended (t : String) (k m : Nat) (h1 : 1 ≤ k) (h2 : k ≤ 10)
    (hf : normTok t = 'C' :: 'R' :: (List.replicate m '0' ++ (toString k).data))
    (recs : List Rec) (r : Rec) (hr : r ∈ recs) (ht : t ∈ r.tags) :
    norm_cr t = some ("CR" ++ toString k) ∧
    r.qid ∈ coverFrom covInit recs ("CR" ++ toString k) := by
  have hdig : allDigits (toString k).data = true ∧
      natOfDigits (toString k).data = k ∧ (toString k).data ≠ [] := by
    interval_cases k <;> refine ⟨by decide, by decide, by decide⟩
  have hcr : norm_cr t = some ("CR" ++ toString k) := by
    unfold norm_cr
    rw [hf]
    have hall : allDigits (List.replicate m '0' ++ (toString k).data) = true :=
      allDigits_replicate_append m _ hdig.1
    have hval : natOfDigits (List.replicate m '0' ++ (toString k).data) = k :=
      (natOfDigits_replicate_zero m _).trans hdig.2.1
    have hne : List.replicate m '0' ++ (toString k).data ≠ [] := by
      simp [hdig.2.2]
    show (if ('C' : Char) = 'C' ∧ ('R' : Char) = 'R' ∧
        (List.replicate m '0' ++ (toString k).data) ≠ [] ∧
        allDigits (List.replicate m '0' ++ (toString k).data) = true ∧
        1 ≤ natOfDigits (List.replicate m '0' ++ (toString k).data) ∧
        natOfDigits (List.replicate m '0' ++ (toString k).data) ≤ 10 then
        some ("CR" ++ toString (natOfDigits (List.replicate m '0' ++ (toString k).data)))
      else none) = some ("CR" ++ toString k)
    rw [if_pos ⟨rfl, rfl, hne, hall, by rw [hval]; omega, by rw [hval]; omega⟩, hval]
  refine ⟨hcr, ?_⟩
  rw [coverFrom_apply]
  rw [mem_addNew]
  right
  rw [List.mem_map]
  refine ⟨r, ?_, rfl⟩
  rw [List.mem_filter]
  refine ⟨hr, ?_⟩
  simp only [decide_eq_true_eq]
  unfold recCodes
  rw [List.mem_append, List.mem_append]
  exact Or.inl (Or.inl (List.mem_filterMap.mpr ⟨t, ht, hcr⟩))

/-- C5 witness. -/
theorem C5_witness :
    norm_cr "cr-01" = some "CR1" ∧
    "Q1" ∈ coverFrom covInit [{ qid := "Q1", tags := ["cr-01"], txt := none }] "CR1" := by
  have h := C5_amended "cr-01" 1 1 (by decide) (by decide) (by decide)
    [{ qid := "Q1", tags := ["cr-01"], txt := none }]
    { qid := "Q1", tags := ["cr-01"], txt := none } (by simp) (by simp)
  exact h

/-- C6: the free-text fallback produces only CR codes 1..10; a letter-code
coverage entry can only come from a tag (a letter inside prose never matches);
every CR code found in a record text is recorded for that record. -/
theorem C6_text_fallback_cr_only (s : String) (k : Nat) (hk : k ∈ crMatches s)
    (recs : List Rec) (R q : String) (hR : R ∈ LETTERS)
    (hq : q ∈ coverFrom covInit recs R)
    (r : Rec) (hr : r ∈ recs) (s2 : String) (hs2 : r.txt = some s2) (k2 : Nat)
    (hk2 : k2 ∈ crMatches s2) :
    (1 ≤ k ∧ k ≤ 10) ∧
    (∃ r2 ∈ recs, q = r2.qid ∧ R ∈ r2.tags) ∧
    r.qid ∈ coverFrom covInit recs ("CR" ++ toString k2) ∧
    crMatches "see cr-03 and CR10 here" = [3, 10] ∧
    coverFrom covInit
      [{ qid := "Q1", tags := [], txt := some "A single letter A in prose" }] "A" = [] := by
  refine ⟨crMatches_bounds s k hk, ?_, ?_, by decide, by decide⟩
  · rw [coverFrom_apply] at hq
    rcases mem_addNew.mp hq with hinit | hmem
    · exact absurd hinit (by simp [covInit])
    · obtain ⟨r2, hfil, heq⟩ := List.mem_map.mp hmem
      obtain ⟨hin, hdec⟩ := List.mem_filter.mp hfil
      have hcode : R ∈ recCodes r2 := by simpa using hdec
      unfold recCodes at hcode
      rw [List.mem_append, List.mem_append] at hcode
      rcases hcode with (hcr | hlet) | htxt
      · obtain ⟨t, _, hnc⟩ := List.mem_filterMap.mp hcr
        obtain ⟨k3, _, _, hform⟩ := norm_cr_shape t R hnc
        exact absurd hform.symm (CR_ne_letter k3 R hR)
      · obtain ⟨_, htag⟩ := List.mem_filter.mp hlet
        exact ⟨r2, hin, heq.symm, by simpa using htag⟩
      · rcases ht2 : r2.txt with _ | s3
        · rw [ht2] at htxt
          exact absurd htxt (by simp)
        · rw [ht2] at htxt
          obtain ⟨k3, _, hform⟩ := List.mem_map.mp htxt
          exact absurd hform (CR_ne_letter k3 R hR)
  · rw [coverFrom_apply, mem_addNew]
    right
    rw [List.mem_map]
    refine ⟨r, ?_, rfl⟩
    rw [List.mem_filter]
    refine ⟨hr, ?_⟩
    simp only [decide_eq_true_eq]
    unfold recCodes
    rw [List.mem_append]
    right
    rw [hs2]
    exact List.mem_map.mpr ⟨k2, hk2, rfl⟩

/-- C6 witness. -/
theorem C6_witness :
    (1 ≤ 2 ∧ 2 ≤ 10) ∧
    "Q1" ∈ coverFrom covInit
      [{ qid := "Q1", tags := ["A"], txt := some "see cr2" }] "CR2" := by
  have h := C6_text_fallback_cr_only "see cr2" 2 (by decide)
    [{ qid := "Q1", tags := ["A"], txt := some "see cr2" }] "A" "Q1" (by decide)
    (by decide) { qid := "Q1", tags := ["A"], txt := some "see cr2" } (by simp)
    "see cr2" rfl 2 (by decide)
  exact ⟨h.1, h.2.2.1⟩

/-- C9: the aggregation is a pure function of the input rows and the fixed
enumeration: record views that differ only in the iteration order of their tag
sets yield identical phase0 coverage and an identical emitted table, and the
engine consumes its tag set only through membership and sorting, both of which
are canonical under permutation. -/
theorem C9_determinism (recs1 recs2 : List Rec)
    (h : List.Forall₂ recEquiv recs1 recs2) (v1 v2 : String)
    (hv : List.Perm (norm_tags v1) (norm_tags v2)) :
    (∀ R, coverFrom covInit recs1 R = coverFrom covInit recs2 R) ∧
    write_coverage (coverFrom covInit recs1) = write_coverage (coverFrom covInit recs2) ∧
    String.intercalate "," (sortStr (norm_tags v1)) =
      String.intercalate "," (sortStr (norm_tags v2)) ∧
    REQS.filter (fun r => decide (r ∈ norm_tags v1)) =
      REQS.filter (fun r => decide (r ∈ norm_tags v2)) := by
  have hcov : ∀ R, coverFrom covInit recs1 R = coverFrom covInit recs2 R := by
    intro R
    rw [coverFrom_apply, coverFrom_apply]
    have hlist :
        (recs1.filter (fun r => decide (R ∈ recCodes r))).map Rec.qid =
          (recs2.filter (fun r => decide (R ∈ recCodes r))).map Rec.qid := by
      induction h with
      | nil => rfl
      | cons hab htail ih =>
        rename_i a b l1 l2
        by_cases hmem : R ∈ recCodes a
        · have hmem2 : R ∈ recCodes b := (recCodes_mem_of_equiv hab R).mp hmem
          rw [List.filter_cons_of_pos (by simpa using hmem),
            List.filter_cons_of_pos (by simpa using hmem2),
            List.map_cons, List.map_cons, ih, hab.1]
        · have hmem2 : R ∉ recCodes b := fun hc => hmem ((recCodes_mem_of_equiv hab R).mpr hc)
          rw [List.filter_cons_of_neg (by simpa using hmem),
            List.filter_cons_of_neg (by simpa using hmem2), ih]
    rw [hlist]
  refine ⟨hcov, ?_, ?_, ?_⟩
  · have hfun : coverFrom covInit recs1 = coverFrom covInit recs2 := funext hcov
    rw [hfun]
  · rw [sortStr_eq_of_perm hv]
  · refine List.filter_congr ?_
    intro x _
    have hx : x ∈ norm_tags v1 ↔ x ∈ norm_tags v2 := hv.mem_iff
    simp [hx]

/-- C9 witness. -/
theorem C9_witness :
    coverFrom covInit [{ qid := "Q1", tags := ["CR1", "A"], txt := none }] "A" =
      coverFrom covInit [{ qid := "Q1", tags := ["A", "CR1"], txt := none }] "A" ∧
    String.intercalate "," (sortStr (norm_tags "b, a")) =
      String.intercalate "," (sortStr (norm_tags "a;b")) := by
  have h := C9_determinism
    [{ qid := "Q1", tags := ["CR1", "A"], txt := none }]
    [{ qid := "Q1", tags := ["A", "CR1"], txt := none }]
    (List.Forall₂.cons ⟨rfl, rfl, by decide⟩ List.Forall₂.nil)
    "b, a" "a;b" (by decide)
  exact ⟨h.1 "A", h.2.2.1⟩

/-- C3 counterexample: a table whose only column is `text` has neither an
identifier-like nor a tag-like column, yet phase0 completes normally (exit 0)
and writes a full all-gaps coverage report instead of signalling an error. -/
theorem C3_counterexample :
    pickFirst ["text"] ID_CANDS = none ∧
    pickTagCols ["text"] = [] ∧
    phase0Run (some ⟨["text"], [[("text", "")]]⟩) true =
      Except.ok (REQS.map (fun req =>
        { Requirement := req, Covered := "N", Count := 0, QuestionIDs := "",
          ProposedAddIfGap := "ADD_" ++ req ++ "_QUESTION" })) := by
  refine ⟨rfl, rfl, ?_⟩
  have h : phase0Run (some ⟨["text"], [[("text", "")]]⟩) true =
      Except.ok (write_coverage (coverage_from_rows ⟨["text"], [[("text", "")]]⟩)) := rfl
  rw [h]
  have h2 : write_coverage (coverage_from_rows ⟨["text"], [[("text", "")]]⟩) =
      REQS.map (fun req =>
        { Requirement := req, Covered := "N", Count := 0, QuestionIDs := "",
          ProposedAddIfGap := "ADD_" ++ req ++ "_QUESTION" }) := by decide
  rw [h2]

/-- C3 amended: engine_cli exits 2 when the questions file is missing and 3
when either the id or the tag column cannot be discovered, in both cases
producing no artifacts; with both columns discovered it always completes with
the three artifacts.  phase0 exits non-zero only for a missing input file; it
completes normally regardless of column discovery. -/
theorem C3_amended (tbl : Table) (b : Bool) (idc tagc : String) :
    engineMain none = Except.error 2 ∧
    (engineIdcol tbl.cols = none ∨ engineTagcol tbl.cols = none →
      engineMain (some tbl) = Except.error 3) ∧
    (engineIdcol tbl.cols = some idc → engineTagcol tbl.cols = some tagc →
      engineMain (some tbl) =
        Except.ok (engineArtifacts idc tagc (engineEvcol tbl.cols) tbl.rows)) ∧
    phase0Run none b = Except.error "Missing ./Fixes/questions.csv" ∧
    phase0Run (some tbl) true = Except.ok (write_coverage (coverage_from_rows tbl)) := by
  have hred : engineMain (some tbl) =
      (match engineIdcol tbl.cols, engineTagcol tbl.cols with
        | some i, some t => Except.ok (engineArtifacts i t (engineEvcol tbl.cols) tbl.rows)
        | _, _ => Except.error 3) := rfl
  refine ⟨rfl, ?_, ?_, rfl, rfl⟩
  · intro hcase
    rw [hred]
    cases hid : engineIdcol tbl.cols with
    | none =>
      cases htag : engineTagcol tbl.cols with
      | none => rfl
      | some t => rfl
    | some i =>
      cases htag : engineTagcol tbl.cols with
      | none => rfl
      | some t =>
        rcases hcase with hc | hc
        · rw [hid] at hc
          exact absurd hc (by simp)
        · rw [htag] at hc
          exact absurd hc (by simp)
  · intro hid htag
    rw [hred, hid, htag]

/-- C3 witness. -/
theorem C3_witness :
    engineMain (some ⟨["text"], []⟩) = Except.error 3 ∧
    engineMain (some ⟨["id", "tags"], []⟩) =
      Except.ok (engineArtifacts "id" "tags" none []) := by
  have h1 := (C3_amended ⟨["text"], []⟩ true "id" "tags").2.1 (Or.inl rfl)
  have h2 := (C3_amended ⟨["id", "tags"], []⟩ true "id" "tags").2.2.1 rfl rfl
  exact ⟨h1, h2⟩
